import Mathlib

/-!
Shallow embedding of the map module of the worldeditor2 repository
(classes World, Cube, Voxel).  JavaScript numbers used as colours and
ids are modelled as Nat; a JavaScript `throw` is modelled as the
`Except.error` branch of `Except String`.  Accessors that in JS read
`arr[0].length` are modelled with `List.headD []`, which agrees with
the source whenever the accessed rows are non-empty (the well-formed
inputs all theorems below quantify over); on an empty row JS raises a
TypeError instead.
-/

/-- Voxel: a 4-channel colour/opacity unit (constructor defaults are 0). -/
structure Voxel where
  r : Nat
  g : Nat
  b : Nat
  a : Nat
deriving DecidableEq, Repr

/-- Source `get visible() { return this.a!=0 }`. -/
def Voxel.visible (v : Voxel) : Bool := v.a != 0

/-- Source `static eq(a,b)`: component-wise equality of two voxels. -/
def Voxel.veq (u v : Voxel) : Bool :=
  u.r == v.r && u.g == v.g && u.b == v.b && u.a == v.a

/-- Cube: a dense 3D array of voxels with metadata. -/
structure Cube where
  name : String
  description : String
  vox : List (List (List Voxel))
  author : String
deriving DecidableEq, Repr

/-- Source `get width() { return this.vox.length }`. -/
def Cube.width (c : Cube) : Nat := c.vox.length

/-- Source `get height() { return this.vox[0].length }`. -/
def Cube.height (c : Cube) : Nat := (c.vox.headD []).length

/-- Source `get depth() { return this.vox[0][0].length }`. -/
def Cube.depth (c : Cube) : Nat := ((c.vox.headD []).headD []).length

/-- World: metadata, a palette of cubes, and a 3D grid of ids into the
palette (0 means empty, n means palette entry n-1). -/
structure World where
  name : String
  description : String
  cube : List Cube
  space : List (List (List Nat))
  author : String
deriving DecidableEq, Repr

/-- Source `get width() { return this.space.length }`. -/
def World.width (w : World) : Nat := w.space.length

/-- Source `get height() { return this.space[0].length }`. -/
def World.height (w : World) : Nat := (w.space.headD []).length

/-- Source `get depth() { return this.space[0][0].length }`. -/
def World.depth (w : World) : Nat := ((w.space.headD []).headD []).length

/-- Source `get cubeWidth()`: width of the first palette cube, raising
when the palette is empty. -/
def World.cubeWidth (w : World) : Except String Nat :=
  match w.cube with
  | [] => .error "No block defined yet, therefor no cube dimensions present"
  | c :: _ => .ok c.width

/-- Source `get cubeHeight()`. -/
def World.cubeHeight (w : World) : Except String Nat :=
  match w.cube with
  | [] => .error "No block defined yet, therefor no cube dimensions present"
  | c :: _ => .ok c.height

/-- Source `get cubeDepth()`. -/
def World.cubeDepth (w : World) : Except String Nat :=
  match w.cube with
  | [] => .error "No block defined yet, therefor no cube dimensions present"
  | c :: _ => .ok c.depth

/-- Source `get integrity()`: raises when `width*height*depth` differs
from the length of `space.flat(2)`, or when some palette cube differs in
size from the first one; otherwise returns true. -/
def World.integrity (w : World) : Except String Bool :=
  if w.width * w.height * w.depth ≠ w.space.flatten.flatten.length then
    .error "The space has unequal dimensionality"
  else
    match w.cube with
    | [] => .ok true
    | c0 :: _ =>
      if w.cube.any (fun c =>
          c.width != c0.width || c.height != c0.height || c.depth != c0.depth) then
        .error "The cubes have unequal sizes"
      else
        .ok true

/-- Source `addCube(cube)`: raises when the palette is non-empty and the
new cube's dimensions differ from the first palette cube's; otherwise
pushes the cube onto the palette. -/
def World.addCube (w : World) (c : Cube) : Except String World :=
  match w.cube with
  | [] => .ok { w with cube := w.cube ++ [c] }
  | c0 :: _ =>
    if c0.width != c.width || c0.height != c.height || c0.depth != c.depth then
      .error "cube dimensions do not confrom to other cubes dimensions"
    else
      .ok { w with cube := w.cube ++ [c] }

/-- JavaScript `array.map((elem, i) => ...)` with an explicit running
index. -/
def jsMapIdx (f : α → Nat → β) : List α → Nat → List β
  | [], _ => []
  | a :: as, i => f a i :: jsMapIdx f as (i + 1)

/-- Source `map(f)` on World: maps every id through `f(id,x,y,z)` and
builds a new World; the constructor call passes only four arguments, so
the new World's author is the default empty string. -/
def World.map (w : World) (f : Nat → Nat → Nat → Nat → Nat) : World :=
  { name := w.name
    description := w.description
    cube := w.cube
    space := jsMapIdx (fun plane i =>
      jsMapIdx (fun row j =>
        jsMapIdx (fun id k => f id i j k) row 0) plane 0) w.space 0
    author := "" }

/-- An element of the expansion in `World.asCube`: reads the id at
`space[x/cw][y/ch][z/cw]` (the source divides the z coordinate by
`cubeWidth`, line `Math.floor(z/this.cubeWidth)`); id 0 yields the
default voxel, otherwise the voxel `cube[id-1].vox[x%cw][y%ch][z%cw]`
(again `z%this.cubeWidth` in the source).  An out-of-range access that
in JS would dereference `undefined` is modelled as an error; a final
z-index out of range, where JS silently stores `undefined` as the
element, is also modelled as an error since no Voxel value exists. -/
def World.expandElem (w : World) (cw ch : Nat) (x y z : Nat) :
    Except String Voxel :=
  match ((w.space.get? (x / cw)).bind (fun p => p.get? (y / ch))).bind
      (fun r => r.get? (z / cw)) with
  | none => .error "TypeError: undefined space entry"
  | some id =>
    if id = 0 then
      .ok ⟨0, 0, 0, 0⟩
    else
      match w.cube.get? (id - 1) with
      | none => .error "TypeError: undefined palette cube"
      | some c =>
        match ((c.vox.get? (x % cw)).bind (fun p => p.get? (y % ch))).bind
            (fun r => r.get? (z % cw)) with
        | none => .error "TypeError: undefined voxel"
        | some v => .ok v

/-- JavaScript `Array.map` over a list where the body may throw: the
first raised error aborts the traversal, exactly as an exception
propagating out of a JS `map` callback does. -/
def mapE (f : α → Except String β) : List α → Except String (List β)
  | [] => .ok []
  | a :: as =>
    match f a with
    | .error e => .error e
    | .ok b =>
      match mapE f as with
      | .error e => .error e
      | .ok bs => .ok (b :: bs)

/-- Source `get asCube()`: checks integrity, then builds a dense cube of
extents `cubeWidth*width`, `cubeHeight*height`, `cubeDepth*depth`, each
element computed by `expandElem`.  The source evaluates `this.integrity`
first, then accesses `this.cubeWidth` (raising on an empty palette), and
only then maps over the coordinate ranges. -/
def World.asCube (w : World) : Except String Cube :=
  match w.integrity with
  | .error e => .error e
  | .ok ok =>
    if !ok then
      .error "Integrtity Error: Build failed"
    else
      match w.cubeWidth with
      | .error e => .error e
      | .ok cw =>
        match w.cubeHeight with
        | .error e => .error e
        | .ok ch =>
          match w.cubeDepth with
          | .error e => .error e
          | .ok cd =>
            match mapE (fun x =>
                mapE (fun y =>
                  mapE (fun z => w.expandElem cw ch x y z)
                    (List.range (cd * w.depth)))
                  (List.range (ch * w.height)))
                (List.range (cw * w.width)) with
            | .error e => .error e
            | .ok vox => .ok ⟨w.name, w.description, vox, w.author⟩

/-- Source `get voxelTypes()` on Cube: scans `vox.flat(2)` keeping each
voxel not yet seen (component-wise), then filters out invisible ones. -/
def Cube.voxelTypes (c : Cube) : List Voxel :=
  (c.vox.flatten.flatten.foldl
    (fun a v => if a.all (fun u => !(Voxel.veq u v)) then a ++ [v] else a)
    []).filter Voxel.visible

/-- Source `get voxelTypes()` on World: folds over the palette cubes'
voxelTypes, appending the entries not yet represented (component-wise)
in the accumulator. -/
def World.voxelTypes (w : World) : List Voxel :=
  (w.cube.map Cube.voxelTypes).foldl
    (fun a c => a ++ c.filter (fun x => !(a.any (fun y => Voxel.veq x y)))) []

/-- Serialized form of a Voxel: a 4-number tuple (r,g,b,a), as in the
persisted JSON format. -/
def Voxel.toJSON (v : Voxel) : Nat × Nat × Nat × Nat := (v.r, v.g, v.b, v.a)

/-- Source `Voxel.fromJSON`: rebuilds a voxel from the ordered numeric
fields of its serialized form. -/
def Voxel.fromJSON (t : Nat × Nat × Nat × Nat) : Voxel :=
  ⟨t.1, t.2.1, t.2.2.1, t.2.2.2⟩

/-- Serialized form of a Cube: name, description, author and the voxel
grid as nested 4-number tuples. -/
structure CubeJSON where
  name : String
  description : String
  vox : List (List (List (Nat × Nat × Nat × Nat)))
  author : String
deriving DecidableEq, Repr

/-- Serialized form of a World: name, description, author, the palette
of serialized cubes, and the raw id grid. -/
structure WorldJSON where
  name : String
  description : String
  cube : List CubeJSON
  space : List (List (List Nat))
  author : String
deriving DecidableEq, Repr

/-- Modelled from the spec: the implicit plain-object serialization of a
Cube (the source persists the object shape directly; no serializer
function exists in the module). -/
def Cube.toJSON (c : Cube) : CubeJSON :=
  ⟨c.name, c.description,
   c.vox.map (fun p => p.map (fun r => r.map Voxel.toJSON)), c.author⟩

/-- Source `Cube.fromJSON`: rebuilds the metadata and maps every nested
entry through `Voxel.fromJSON`. -/
def Cube.fromJSON (j : CubeJSON) : Cube :=
  ⟨j.name, j.description,
   j.vox.map (fun p => p.map (fun r => r.map Voxel.fromJSON)), j.author⟩

/-- Modelled from the spec: the implicit plain-object serialization of a
World (name, description, author, serialized palette, raw space grid). -/
def World.toJSON (w : World) : WorldJSON :=
  ⟨w.name, w.description, w.cube.map Cube.toJSON, w.space, w.author⟩

/-- Source `World.fromJSON`: rebuilds the metadata, deserializes each
palette cube, and takes the space grid as-is. -/
def World.fromJSON (j : WorldJSON) : World :=
  ⟨j.name, j.description, j.cube.map Cube.fromJSON, j.space, j.author⟩


/-- Definition written from the wording of claim C1: the expansion
element of a world with a non-empty palette, where both the z-axis
division (block lookup) and the z-axis remainder (voxel lookup) use the
first palette cube's WIDTH, never its depth: the id is read at
`space[x/cubeWidth][y/cubeHeight][z/cubeWidth]` and the voxel at
`vox[x%cubeWidth][y%cubeHeight][z%cubeWidth]`. -/
def zByWidthLookup (w : World) (x y z : Nat) : Option Voxel :=
  match w.cube with
  | [] => none
  | c0 :: _ =>
    match ((w.space.get? (x / c0.width)).bind (fun p => p.get? (y / c0.height))).bind
        (fun r => r.get? (z / c0.width)) with
    | none => none
    | some 0 => some ⟨0, 0, 0, 0⟩
    | some (n + 1) =>
      ((((w.cube.get? n).map Cube.vox).bind (fun p => p.get? (x % c0.width))).bind
        (fun r => r.get? (y % c0.height))).bind (fun col => col.get? (z % c0.width))

lemma veq_iff (u v : Voxel) : Voxel.veq u v = true ↔ u = v := by
  cases u
  cases v
  simp [Voxel.veq, Voxel.mk.injEq, and_assoc]

lemma veq_refl (v : Voxel) : Voxel.veq v v = true := (veq_iff v v).mpr rfl

lemma veq_false_iff (u v : Voxel) : Voxel.veq u v = false ↔ u ≠ v := by
  rw [← Bool.not_eq_true, veq_iff]

lemma veq_symm (u v : Voxel) : Voxel.veq u v = Voxel.veq v u := by
  by_cases h : u = v
  · subst h
    rfl
  · rw [(veq_false_iff u v).mpr h, Eq.comm,
      (veq_false_iff v u).mpr (fun hvu => h hvu.symm)]

lemma integrity_shape (w : World) :
    w.integrity = Except.ok true ∨ ∃ s, w.integrity = Except.error s := by
  unfold World.integrity
  split
  · exact .inr ⟨_, rfl⟩
  · split
    · exact .inl rfl
    · split
      · exact .inr ⟨_, rfl⟩
      · exact .inl rfl

lemma integrity_ok_iff_aux (w : World) :
    w.integrity = Except.ok true ↔
      (w.width * w.height * w.depth = w.space.flatten.flatten.length ∧
        ∀ c0 ∈ w.cube.head?, ∀ c ∈ w.cube,
          c.width = c0.width ∧ c.height = c0.height ∧ c.depth = c0.depth) := by
  unfold World.integrity
  cases hc : w.cube with
  | nil =>
    split
    · rename_i h
      constructor
      · intro hcontra
        exact Except.noConfusion hcontra
      · rintro ⟨h1, -⟩
        exact absurd h1 h
    · rename_i h
      rw [not_ne_iff] at h
      constructor
      · intro _
        exact ⟨h, by simp⟩
      · intro _
        rfl
  | cons c0 rest =>
    split
    · rename_i h
      constructor
      · intro hcontra
        exact Except.noConfusion hcontra
      · rintro ⟨h1, -⟩
        exact absurd h1 h
    · rename_i h
      rw [not_ne_iff] at h
      split
      · rename_i heq
        exact absurd heq (by simp)
      · rename_i c0m tail heq
        obtain ⟨rfl, rfl⟩ : c0m = c0 ∧ tail = rest := by
          injection heq with h1 h2
          exact ⟨h1.symm, h2.symm⟩
        split
        · rename_i hany
          simp only [List.any_eq_true, Bool.or_eq_true, bne_iff_ne] at hany
          obtain ⟨cbad, hmem, hbad⟩ := hany
          constructor
          · intro hcontra
            exact Except.noConfusion hcontra
          · rintro ⟨-, hall⟩
            have hd := hall c0m (by simp) cbad hmem
            rcases hbad with (hb | hb) | hb
            · exact absurd hd.1 hb
            · exact absurd hd.2.1 hb
            · exact absurd hd.2.2 hb
        · rename_i hany
          simp only [List.any_eq_true, Bool.or_eq_true, bne_iff_ne] at hany
          push_neg at hany
          constructor
          · intro _
            refine ⟨h, ?_⟩
            intro c0m hc0m cm hcm
            simp only [List.head?_cons, Option.mem_def, Option.some.injEq] at hc0m
            subst hc0m
            exact ⟨(hany cm hcm).1.1, (hany cm hcm).1.2, (hany cm hcm).2⟩
          · intro _
            rfl

/-- Claim C2: the integrity check returns true exactly when the flattened
length of space equals width*height*depth (extents read from the array
heads) and every palette cube has the same width, height and depth as
the first palette cube; in every other case it raises a descriptive
error and it never returns false. -/
theorem claim_C2_integrity_iff (w : World) :
    (w.integrity = Except.ok true ↔
      (w.width * w.height * w.depth = w.space.flatten.flatten.length ∧
        ∀ c0 ∈ w.cube.head?, ∀ c ∈ w.cube,
          c.width = c0.width ∧ c.height = c0.height ∧ c.depth = c0.depth)) ∧
    w.integrity ≠ Except.ok false ∧
    (¬ (w.width * w.height * w.depth = w.space.flatten.flatten.length ∧
        ∀ c0 ∈ w.cube.head?, ∀ c ∈ w.cube,
          c.width = c0.width ∧ c.height = c0.height ∧ c.depth = c0.depth) →
      ∃ s, w.integrity = Except.error s) := by
  refine ⟨integrity_ok_iff_aux w, ?_, ?_⟩
  · intro hfalse
    rcases integrity_shape w with hok | ⟨s, herr⟩
    · rw [hok] at hfalse
      exact Bool.noConfusion (Except.ok.inj hfalse)
    · rw [herr] at hfalse
      exact Except.noConfusion hfalse
  · intro hnot
    rcases integrity_shape w with hok | ⟨s, herr⟩
    · exact absurd ((integrity_ok_iff_aux w).mp hok) hnot
    · exact ⟨s, herr⟩

/-- Witness for C2 at a concrete world: a 1x2x1 space with a rectangular
grid and an empty palette satisfies the characterization. -/
theorem claim_C2_integrity_iff_witness :
    (World.mk "w" "" [] [[[0], [0]]] "").integrity = Except.ok true :=
  ((claim_C2_integrity_iff (World.mk "w" "" [] [[[0], [0]]] "")).1).mpr
    ⟨by decide, by simp⟩

lemma addCube_nil (w : World) (c : Cube) (hc : w.cube = []) :
    w.addCube c = Except.ok { w with cube := [c] } := by
  unfold World.addCube
  rw [hc]
  rfl

lemma addCube_cons (w : World) (c c0 : Cube) (rest : List Cube)
    (hc : w.cube = c0 :: rest) :
    w.addCube c =
      if c0.width != c.width || c0.height != c.height || c0.depth != c.depth then
        Except.error "cube dimensions do not confrom to other cubes dimensions"
      else
        Except.ok { w with cube := (c0 :: rest) ++ [c] } := by
  unfold World.addCube
  rw [hc]

/-- Claim C6: addCube raises exactly when the palette is non-empty and the new
cube's width, height or depth differs from the first palette cube's;
otherwise it appends the cube to the palette.  An error is raised before
the push, so the palette of the world is untouched in the error case
(the append is atomic). -/
theorem claim_C6_addCube (w : World) (c : Cube) :
    ((w.cube = [] ∨ ∀ c0 ∈ w.cube.head?,
        c.width = c0.width ∧ c.height = c0.height ∧ c.depth = c0.depth) →
      w.addCube c = Except.ok { w with cube := w.cube ++ [c] }) ∧
    (∀ c0 ∈ w.cube.head?,
      (c.width ≠ c0.width ∨ c.height ≠ c0.height ∨ c.depth ≠ c0.depth) →
      w.addCube c =
        Except.error "cube dimensions do not confrom to other cubes dimensions") := by
  cases hc : w.cube with
  | nil =>
    refine ⟨fun _ => addCube_nil w c hc, ?_⟩
    intro c0 hc0
    simp at hc0
  | cons c0 rest =>
    constructor
    · rintro (h | h)
      · exact List.noConfusion h
      · have hd := h c0 (by simp)
        have hcond : (c0.width != c.width || c0.height != c.height ||
            c0.depth != c.depth) = false := by
          simp [bne_iff_ne, hd.1, hd.2.1, hd.2.2]
        rw [addCube_cons w c c0 rest hc, hcond]
        rfl
    · intro c0m hc0m hdiff
      simp only [List.head?_cons, Option.mem_def, Option.some.injEq] at hc0m
      subst hc0m
      have hcond : (c0.width != c.width || c0.height != c.height ||
          c0.depth != c.depth) = true := by
        simp only [Bool.or_eq_true, bne_iff_ne]
        rcases hdiff with hd | hd | hd
        · exact Or.inl (Or.inl (fun he => hd he.symm))
        · exact Or.inl (Or.inr (fun he => hd he.symm))
        · exact Or.inr (fun he => hd he.symm)
      rw [addCube_cons w c c0 rest hc, hcond]
      rfl

/-- Witness for C6: adding a 2x1x1 cube to a world whose palette holds a
1x1x1 cube raises the dimension error. -/
theorem claim_C6_addCube_witness :
    (World.mk "w" "" [Cube.mk "a" "" [[[⟨0, 0, 0, 0⟩]]] ""] [[[1]]] "").addCube
        (Cube.mk "b" "" [[[⟨1, 1, 1, 1⟩]], [[⟨2, 2, 2, 2⟩]]] "") =
      Except.error "cube dimensions do not confrom to other cubes dimensions" :=
  (claim_C6_addCube _ _).2 (Cube.mk "a" "" [[[⟨0, 0, 0, 0⟩]]] "") (by simp)
    (Or.inl (by decide))

lemma jsMapIdx_id (l : List α) (n : Nat) :
    jsMapIdx (fun a _ => a) l n = l := by
  induction l generalizing n with
  | nil => rfl
  | cons a as ih =>
    unfold jsMapIdx
    rw [ih]

lemma jsMapIdx_id2 (plane : List (List Nat)) (n : Nat) :
    jsMapIdx (fun row j => jsMapIdx (fun id k => id) row 0) plane n = plane := by
  induction plane generalizing n with
  | nil => rfl
  | cons p ps ih => simp [jsMapIdx, jsMapIdx_id, ih]

lemma jsMapIdx_id3 (sp : List (List (List Nat))) (n : Nat) :
    jsMapIdx (fun plane i =>
      jsMapIdx (fun row j => jsMapIdx (fun id k => id) row 0) plane 0) sp n = sp := by
  induction sp generalizing n with
  | nil => rfl
  | cons p ps ih => simp [jsMapIdx, jsMapIdx_id2, jsMapIdx_id, ih]

/-- Claim C4 (code bug): mapping the identity over a World preserves the name,
description, palette and every id of the space, but the source passes
only four arguments to the World constructor, so the author of the
result is always the empty string instead of the original author; the
claimed structural equality fails on any world whose author is
non-empty. -/
theorem claim_C4_map_identity (w : World) :
    w.map (fun i _ _ _ => i) = { w with author := "" } := by
  show World.mk w.name w.description w.cube
      (jsMapIdx (fun plane i =>
        jsMapIdx (fun row j => jsMapIdx (fun id k => id) row 0) plane 0)
        w.space 0) "" = { w with author := "" }
  rw [jsMapIdx_id3]

/-- Witness for C4: a concrete world whose author is "A" maps to one
whose author is the empty string. -/
theorem claim_C4_map_identity_witness :
    (World.mk "n" "d" [] [[[0, 1]]] "A").map (fun i _ _ _ => i) =
      World.mk "n" "d" [] [[[0, 1]]] "" :=
  claim_C4_map_identity (World.mk "n" "d" [] [[[0, 1]]] "A")

lemma voxel_fromJSON_toJSON (v : Voxel) : Voxel.fromJSON v.toJSON = v := rfl

lemma cube_fromJSON_toJSON (c : Cube) : Cube.fromJSON c.toJSON = c := by
  have hcomp : Voxel.fromJSON ∘ Voxel.toJSON = id := funext voxel_fromJSON_toJSON
  cases c with
  | mk n d vox a =>
    simp [Cube.toJSON, Cube.fromJSON, List.map_map, hcomp]

/-- Claim C5: deserializing the plain-object serialization of any World (the
fields name, description, author, the palette of cubes with their voxel
grids as 4-number tuples, and the raw space grid) gives back a World
equal to the original in every component. -/
theorem claim_C5_roundtrip (w : World) : World.fromJSON w.toJSON = w := by
  have hcomp : Cube.fromJSON ∘ Cube.toJSON = id := funext cube_fromJSON_toJSON
  cases w with
  | mk n d cube space a =>
    simp [World.toJSON, World.fromJSON, List.map_map, hcomp]

/-- Witness for C5 at a concrete world. -/
theorem claim_C5_roundtrip_witness :
    World.fromJSON (World.toJSON
        (World.mk "w" "d" [Cube.mk "c" "" [[[⟨1, 2, 3, 4⟩]]] "x"] [[[1]]] "me")) =
      World.mk "w" "d" [Cube.mk "c" "" [[[⟨1, 2, 3, 4⟩]]] "x"] [[[1]]] "me" :=
  claim_C5_roundtrip (World.mk "w" "d" [Cube.mk "c" "" [[[⟨1, 2, 3, 4⟩]]] "x"] [[[1]]] "me")

lemma asCube_integrity_error (w : World) (e : String)
    (h : w.integrity = Except.error e) : w.asCube = Except.error e := by
  unfold World.asCube
  rw [h]

lemma cubeWidth_nil (w : World) (hc : w.cube = []) :
    w.cubeWidth =
      Except.error "No block defined yet, therefor no cube dimensions present" := by
  unfold World.cubeWidth
  rw [hc]

lemma asCube_empty_palette (w : World) (hc : w.cube = [])
    (hint : w.integrity = Except.ok true) :
    w.asCube =
      Except.error "No block defined yet, therefor no cube dimensions present" := by
  unfold World.asCube
  rw [hint, cubeWidth_nil w hc]
  rfl

lemma asCube_ok_integrity (w : World) (c : Cube) (h : w.asCube = Except.ok c) :
    w.integrity = Except.ok true := by
  unfold World.asCube at h
  split at h
  · exact Except.noConfusion h
  · rename_i b heq
    split at h
    · exact Except.noConfusion h
    · rename_i hb
      cases b with
      | false => simp at hb
      | true => exact heq

/-- Claim C7: asCube propagates every integrity error, fails on an empty
palette (in particular when space holds a non-zero id), and never
returns a Cube for a World whose integrity check does not succeed. -/
theorem claim_C7_asCube_fails (w : World) :
    (∀ e, w.integrity = Except.error e → w.asCube = Except.error e) ∧
    (w.cube = [] → (∃ p ∈ w.space, ∃ r ∈ p, ∃ id ∈ r, id ≠ 0) →
      ∃ s, w.asCube = Except.error s) ∧
    (∀ c, w.asCube = Except.ok c → w.integrity = Except.ok true) := by
  refine ⟨fun e he => asCube_integrity_error w e he, ?_, fun c hc => asCube_ok_integrity w c hc⟩
  intro hc _
  rcases integrity_shape w with hok | ⟨s, herr⟩
  · exact ⟨_, asCube_empty_palette w hc hok⟩
  · exact ⟨s, asCube_integrity_error w s herr⟩

/-- Witness for C7: a world with a ragged space propagates the
dimensionality error through asCube. -/
theorem claim_C7_asCube_fails_witness :
    (World.mk "w" "" [] [[[0], [0, 0]]] "").asCube =
      Except.error "The space has unequal dimensionality" :=
  (claim_C7_asCube_fails (World.mk "w" "" [] [[[0], [0, 0]]] "")).1
    "The space has unequal dimensionality" rfl

/-- Claim C10: on a World with an empty palette, asCube raises the "no block
defined" error coming from the cubeWidth accessor whenever integrity
holds (even when every id in space is 0), and the expansion never
succeeds: asCube never returns a Cube when the palette is empty. -/
theorem claim_C10_empty_palette (w : World) (hc : w.cube = []) :
    (w.integrity = Except.ok true →
      w.asCube =
        Except.error "No block defined yet, therefor no cube dimensions present") ∧
    (∀ c : Cube, w.asCube ≠ Except.ok c) := by
  refine ⟨fun hint => asCube_empty_palette w hc hint, ?_⟩
  intro c hok
  have := asCube_ok_integrity w c hok
  rw [asCube_empty_palette w hc this] at hok
  exact Except.noConfusion hok

/-- Witness for C10: the all-zero 1x1x1 world with an empty palette
satisfies integrity yet asCube raises the "no block defined" error. -/
theorem claim_C10_empty_palette_witness :
    (World.mk "" "" [] [[[0]]] "").asCube =
      Except.error "No block defined yet, therefor no cube dimensions present" :=
  (claim_C10_empty_palette (World.mk "" "" [] [[[0]]] "") rfl).1 rfl

lemma mapE_ok_get (f : α → Except String β) (l : List α) (ys : List β)
    (h : mapE f l = Except.ok ys) :
    ∀ i a, l.get? i = some a → ∃ b, ys.get? i = some b ∧ f a = Except.ok b := by
  induction l generalizing ys with
  | nil =>
    intro i a ha
    simp at ha
  | cons a0 as ih =>
    intro i a ha
    unfold mapE at h
    cases hfa : f a0 with
    | error e =>
      rw [hfa] at h
      exact Except.noConfusion h
    | ok b0 =>
      rw [hfa] at h
      cases hrest : mapE f as with
      | error e =>
        rw [hrest] at h
        exact Except.noConfusion h
      | ok bs =>
        rw [hrest] at h
        have hys : ys = b0 :: bs := (Except.ok.inj h).symm
        subst hys
        cases i with
        | zero =>
          have : a0 = a := by simpa using ha
          subst this
          exact ⟨b0, rfl, hfa⟩
        | succ j =>
          simp only [List.get?_cons_succ] at ha ⊢
          exact ih bs hrest j a ha

lemma cubeWidth_cons (w : World) (c0 : Cube) (rest : List Cube)
    (hc : w.cube = c0 :: rest) : w.cubeWidth = Except.ok c0.width := by
  unfold World.cubeWidth
  rw [hc]

lemma cubeHeight_cons (w : World) (c0 : Cube) (rest : List Cube)
    (hc : w.cube = c0 :: rest) : w.cubeHeight = Except.ok c0.height := by
  unfold World.cubeHeight
  rw [hc]

lemma cubeDepth_cons (w : World) (c0 : Cube) (rest : List Cube)
    (hc : w.cube = c0 :: rest) : w.cubeDepth = Except.ok c0.depth := by
  unfold World.cubeDepth
  rw [hc]

lemma asCube_ok_components (w : World) (c : Cube) (c0 : Cube) (rest : List Cube)
    (hc : w.cube = c0 :: rest) (h : w.asCube = Except.ok c) :
    c.name = w.name ∧ c.description = w.description ∧ c.author = w.author ∧
    mapE (fun x =>
      mapE (fun y =>
        mapE (fun z => w.expandElem c0.width c0.height x y z)
          (List.range (c0.depth * w.depth)))
        (List.range (c0.height * w.height)))
      (List.range (c0.width * w.width)) = Except.ok c.vox := by
  have hint := asCube_ok_integrity w c h
  unfold World.asCube at h
  rw [hint, cubeWidth_cons w c0 rest hc, cubeHeight_cons w c0 rest hc,
    cubeDepth_cons w c0 rest hc] at h
  simp only [Bool.not_true] at h
  cases hmap : mapE (fun x =>
      mapE (fun y =>
        mapE (fun z => w.expandElem c0.width c0.height x y z)
          (List.range (c0.depth * w.depth)))
        (List.range (c0.height * w.height)))
      (List.range (c0.width * w.width)) with
  | error e =>
    rw [hmap] at h
    exact Except.noConfusion h
  | ok vox =>
    rw [hmap] at h
    have hcv : Cube.mk w.name w.description vox w.author = c := Except.ok.inj h
    subst hcv
    refine ⟨rfl, rfl, rfl, ?_⟩
    simpa using hmap

lemma asCube_ok_elem (w : World) (c : Cube) (c0 : Cube) (rest : List Cube)
    (hc : w.cube = c0 :: rest) (h : w.asCube = Except.ok c)
    (x y z : Nat) (hx : x < c0.width * w.width) (hy : y < c0.height * w.height)
    (hz : z < c0.depth * w.depth) :
    ∃ v, ((c.vox.get? x).bind (fun p => p.get? y)).bind (fun r => r.get? z) =
        some v ∧
      w.expandElem c0.width c0.height x y z = Except.ok v := by
  obtain ⟨-, -, -, hmap⟩ := asCube_ok_components w c c0 rest hc h
  obtain ⟨plane, hplane, hpm⟩ := mapE_ok_get _ _ _ hmap x x (List.get?_range hx)
  obtain ⟨row, hrow, hrm⟩ := mapE_ok_get _ _ _ hpm y y (List.get?_range hy)
  obtain ⟨v, hv, hvm⟩ := mapE_ok_get _ _ _ hrm z z (List.get?_range hz)
  refine ⟨v, ?_, hvm⟩
  rw [hplane, Option.some_bind, hrow, Option.some_bind, hv]

lemma zByWidthLookup_cons (w : World) (c0 : Cube) (rest : List Cube)
    (hc : w.cube = c0 :: rest) (x y z : Nat) :
    zByWidthLookup w x y z =
      match ((w.space.get? (x / c0.width)).bind (fun p => p.get? (y / c0.height))).bind
          (fun r => r.get? (z / c0.width)) with
      | none => none
      | some 0 => some ⟨0, 0, 0, 0⟩
      | some (n + 1) =>
        ((((w.cube.get? n).map Cube.vox).bind (fun p => p.get? (x % c0.width))).bind
          (fun r => r.get? (y % c0.height))).bind (fun col => col.get? (z % c0.width)) := by
  unfold zByWidthLookup
  rw [hc]

lemma expandElem_ok_zByWidth (w : World) (c0 : Cube) (rest : List Cube)
    (hc : w.cube = c0 :: rest) (x y z : Nat) (v : Voxel)
    (h : w.expandElem c0.width c0.height x y z = Except.ok v) :
    zByWidthLookup w x y z = some v := by
  rw [zByWidthLookup_cons w c0 rest hc]
  unfold World.expandElem at h
  split at h
  · exact Except.noConfusion h
  · rename_i id hs
    rw [hs]
    split at h
    · rename_i hid
      subst hid
      exact congrArg some (Except.ok.inj h)
    · rename_i hid
      split at h
      · exact Except.noConfusion h
      · rename_i cb hcg
        split at h
        · exact Except.noConfusion h
        · rename_i v0 hvx
          have hvv : v0 = v := Except.ok.inj h
          subst hvv
          obtain ⟨n, rfl⟩ : ∃ n, id = n + 1 :=
            ⟨id - 1, (Nat.succ_pred_eq_of_pos (Nat.pos_of_ne_zero hid)).symm⟩
          rw [Nat.add_sub_cancel] at hcg
          show ((((w.cube.get? n).map Cube.vox).bind
              (fun p => p.get? (x % c0.width))).bind
              (fun r => r.get? (y % c0.height))).bind
              (fun col => col.get? (z % c0.width)) = some v0
          rw [hcg]
          simpa using hvx

/-- Claim C1: for every World with a non-empty palette that satisfies the
integrity check, each voxel of the cube built by asCube is given by the
width-indexed lookup `zByWidthLookup`: the id is read at
`space[x/cubeWidth][y/cubeHeight][z/cubeWidth]` and the voxel at
`vox[x%cubeWidth][y%cubeHeight][z%cubeWidth]`; the z-axis division and
remainder use the cube's width, never its depth (the depth enters only
the output extent `cubeDepth*depth`). -/
theorem claim_C1_z_axis_uses_width (w : World) (c : Cube) (c0 : Cube)
    (rest : List Cube) (hpal : w.cube = c0 :: rest)
    (hint : w.integrity = Except.ok true) (hok : w.asCube = Except.ok c)
    (x y z : Nat) (hx : x < c0.width * w.width) (hy : y < c0.height * w.height)
    (hz : z < c0.depth * w.depth) :
    ((c.vox.get? x).bind (fun p => p.get? y)).bind (fun r => r.get? z) =
      zByWidthLookup w x y z := by
  obtain ⟨v, hv, he⟩ := asCube_ok_elem w c c0 rest hpal hok x y z hx hy hz
  rw [hv, expandElem_ok_zByWidth w c0 rest hpal x y z v he]

/-- Witness for C1 on a palette cube of width 2 and depth 1 (width and
depth differ), at the expanded coordinate (1,0,0). -/
theorem claim_C1_z_axis_uses_width_witness :
    (((Cube.mk "w" "" [[[⟨1, 0, 0, 1⟩]], [[⟨2, 0, 0, 1⟩]]] "x").vox.get? 1).bind
        (fun p => p.get? 0)).bind (fun r => r.get? 0) =
      zByWidthLookup
        (World.mk "w" "" [Cube.mk "b" "" [[[⟨1, 0, 0, 1⟩]], [[⟨2, 0, 0, 1⟩]]] ""]
          [[[1]]] "x") 1 0 0 :=
  claim_C1_z_axis_uses_width
    (World.mk "w" "" [Cube.mk "b" "" [[[⟨1, 0, 0, 1⟩]], [[⟨2, 0, 0, 1⟩]]] ""]
      [[[1]]] "x")
    (Cube.mk "w" "" [[[⟨1, 0, 0, 1⟩]], [[⟨2, 0, 0, 1⟩]]] "x")
    (Cube.mk "b" "" [[[⟨1, 0, 0, 1⟩]], [[⟨2, 0, 0, 1⟩]]] "") [] rfl rfl rfl
    1 0 0 (by decide) (by decide) (by decide)

/-- Claim C3: whenever asCube succeeds, every expanded coordinate whose block
id in space is 0 holds the default voxel (r=g=b=a=0, hence invisible),
whatever the palette holds; with an empty palette asCube never succeeds
(claim C10), so the property holds for every palette. -/
theorem claim_C3_zero_id_default (w : World) (c : Cube) (cw ch cd : Nat)
    (hcw : w.cubeWidth = Except.ok cw) (hch : w.cubeHeight = Except.ok ch)
    (hcd : w.cubeDepth = Except.ok cd) (hok : w.asCube = Except.ok c)
    (x y z : Nat) (hx : x < cw * w.width) (hy : y < ch * w.height)
    (hz : z < cd * w.depth)
    (h0 : ((w.space.get? (x / cw)).bind (fun p => p.get? (y / ch))).bind
        (fun r => r.get? (z / cw)) = some 0) :
    ((c.vox.get? x).bind (fun p => p.get? y)).bind (fun r => r.get? z) =
      some ⟨0, 0, 0, 0⟩ := by
  cases hcp : w.cube with
  | nil =>
    rw [cubeWidth_nil w hcp] at hcw
    exact Except.noConfusion hcw
  | cons c0 rest =>
    rw [cubeWidth_cons w c0 rest hcp] at hcw
    rw [cubeHeight_cons w c0 rest hcp] at hch
    rw [cubeDepth_cons w c0 rest hcp] at hcd
    have hw : c0.width = cw := Except.ok.inj hcw
    have hh : c0.height = ch := Except.ok.inj hch
    have hd : c0.depth = cd := Except.ok.inj hcd
    subst hw hh hd
    obtain ⟨v, hv, he⟩ := asCube_ok_elem w c c0 rest hcp hok x y z hx hy hz
    unfold World.expandElem at he
    rw [h0] at he
    have hvd : v = ⟨0, 0, 0, 0⟩ := (Except.ok.inj he).symm
    rw [hv, hvd]

/-- Witness for C3: a world with a visible palette voxel but a zero id
in space expands to the default invisible voxel. -/
theorem claim_C3_zero_id_default_witness :
    ((((Cube.mk "w" "" [[[⟨0, 0, 0, 0⟩]]] "").vox.get? 0).bind
        (fun p => p.get? 0)).bind (fun r => r.get? 0) = some ⟨0, 0, 0, 0⟩) :=
  claim_C3_zero_id_default
    (World.mk "w" "" [Cube.mk "b" "" [[[⟨7, 7, 7, 9⟩]]] ""] [[[0]]] "")
    (Cube.mk "w" "" [[[⟨0, 0, 0, 0⟩]]] "") 1 1 1 rfl rfl rfl rfl
    0 0 0 (by decide) (by decide) (by decide) rfl

/-- Claim C9: a World whose palette is a single (1,1,1) cube holding one
visible voxel v, with space [[[1]]], expands to the (1,1,1) Cube holding
exactly v (and the World's own metadata). -/
theorem claim_C9_singleton (n d a cn cdsc ca : String) (v : Voxel)
    (hv : v.visible = true) :
    (World.mk n d [Cube.mk cn cdsc [[[v]]] ca] [[[1]]] a).asCube =
      Except.ok (Cube.mk n d [[[v]]] a) := by
  with_unfolding_all rfl

/-- Witness for C9 at a concrete visible voxel. -/
theorem claim_C9_singleton_witness :
    (World.mk "w" "d" [Cube.mk "c" "" [[[⟨5, 6, 7, 8⟩]]] "z"] [[[1]]] "me").asCube =
      Except.ok (Cube.mk "w" "d" [[[⟨5, 6, 7, 8⟩]]] "me") :=
  claim_C9_singleton "w" "d" "me" "c" "" "z" ⟨5, 6, 7, 8⟩ rfl

lemma dedup_foldl_append (l acc : List Voxel) :
    ∃ t, l.foldl
        (fun a v => if a.all (fun u => !(Voxel.veq u v)) then a ++ [v] else a)
        acc = acc ++ t ∧ t.Sublist l := by
  induction l generalizing acc with
  | nil => exact ⟨[], by simp, List.nil_sublist []⟩
  | cons v vs ih =>
    rw [List.foldl_cons]
    by_cases hg : acc.all (fun u => !(Voxel.veq u v)) = true
    · rw [if_pos hg]
      obtain ⟨t, ht, hs⟩ := ih (acc ++ [v])
      refine ⟨v :: t, ?_, List.Sublist.cons₂ v hs⟩
      rw [ht]
      simp
    · rw [if_neg hg]
      obtain ⟨t, ht, hs⟩ := ih acc
      exact ⟨t, ht, List.Sublist.cons v hs⟩

lemma dedup_foldl_pairwise (l acc : List Voxel)
    (hacc : acc.Pairwise (fun u v => Voxel.veq u v = false)) :
    (l.foldl
        (fun a v => if a.all (fun u => !(Voxel.veq u v)) then a ++ [v] else a)
        acc).Pairwise (fun u v => Voxel.veq u v = false) := by
  induction l generalizing acc with
  | nil => simpa using hacc
  | cons v vs ih =>
    rw [List.foldl_cons]
    by_cases hg : acc.all (fun u => !(Voxel.veq u v)) = true
    · rw [if_pos hg]
      refine ih _ ?_
      rw [List.pairwise_append]
      refine ⟨hacc, List.pairwise_singleton _ _, ?_⟩
      intro u hu b hb
      simp only [List.mem_singleton] at hb
      subst hb
      have hall := List.all_eq_true.mp hg u hu
      simpa using hall
    · rw [if_neg hg]
      exact ih _ hacc

lemma cube_voxelTypes_pairwise (c : Cube) :
    c.voxelTypes.Pairwise (fun u v => Voxel.veq u v = false) := by
  unfold Cube.voxelTypes
  exact List.Pairwise.sublist (List.filter_sublist _)
    (dedup_foldl_pairwise _ [] List.Pairwise.nil)

lemma cube_voxelTypes_visible (c : Cube) :
    ∀ v ∈ c.voxelTypes, v.visible = true := by
  intro v hv
  unfold Cube.voxelTypes at hv
  exact (List.mem_filter.mp hv).2

lemma cube_voxelTypes_sublist (c : Cube) :
    c.voxelTypes.Sublist c.vox.flatten.flatten := by
  unfold Cube.voxelTypes
  obtain ⟨t, ht, hs⟩ := dedup_foldl_append c.vox.flatten.flatten []
  rw [ht]
  simpa using (List.filter_sublist t).trans hs

lemma wfold_append (chunks : List (List Voxel)) (acc : List Voxel) :
    ∃ t, chunks.foldl
        (fun a c => a ++ c.filter (fun x => !(a.any (fun y => Voxel.veq x y))))
        acc = acc ++ t ∧ t.Sublist chunks.flatten := by
  induction chunks generalizing acc with
  | nil => exact ⟨[], by simp, List.nil_sublist []⟩
  | cons ch chs ih =>
    rw [List.foldl_cons]
    obtain ⟨t, ht, hs⟩ :=
      ih (acc ++ ch.filter (fun x => !(acc.any (fun y => Voxel.veq x y))))
    refine ⟨ch.filter (fun x => !(acc.any (fun y => Voxel.veq x y))) ++ t, ?_, ?_⟩
    · rw [ht, List.append_assoc]
    · rw [List.flatten_cons]
      exact List.Sublist.append (List.filter_sublist ch) hs

lemma wfold_pairwise (chunks : List (List Voxel)) (acc : List Voxel)
    (hacc : acc.Pairwise (fun u v => Voxel.veq u v = false))
    (hch : ∀ ch ∈ chunks, ch.Pairwise (fun u v => Voxel.veq u v = false)) :
    (chunks.foldl
        (fun a c => a ++ c.filter (fun x => !(a.any (fun y => Voxel.veq x y))))
        acc).Pairwise (fun u v => Voxel.veq u v = false) := by
  induction chunks generalizing acc with
  | nil => simpa using hacc
  | cons ch chs ih =>
    rw [List.foldl_cons]
    refine ih _ ?_ (fun c hc => hch c (List.mem_cons_of_mem ch hc))
    rw [List.pairwise_append]
    refine ⟨hacc, ?_, ?_⟩
    · exact List.Pairwise.sublist (List.filter_sublist ch) (hch ch (List.mem_cons_self ch chs))
    · intro u hu x hx
      obtain ⟨-, hg⟩ := List.mem_filter.mp hx
      have hxall : ∀ y ∈ acc, Voxel.veq x y = false := by
        intro y hy
        have := List.any_eq_false.mp (by simpa using hg) y hy
        simpa using this
      rw [veq_symm]
      exact hxall u hu

lemma wfold_mem_forward (chunks : List (List Voxel)) (acc : List Voxel)
    (v : Voxel)
    (hv : v ∈ chunks.foldl
        (fun a c => a ++ c.filter (fun x => !(a.any (fun y => Voxel.veq x y))))
        acc) : v ∈ acc ∨ ∃ ch ∈ chunks, v ∈ ch := by
  induction chunks generalizing acc with
  | nil => exact Or.inl (by simpa using hv)
  | cons ch chs ih =>
    rw [List.foldl_cons] at hv
    rcases ih _ hv with hin | ⟨ch2, hch2, hvch2⟩
    · rcases List.mem_append.mp hin with h | h
      · exact Or.inl h
      · exact Or.inr ⟨ch, List.mem_cons_self ch chs, (List.mem_filter.mp h).1⟩
    · exact Or.inr ⟨ch2, List.mem_cons_of_mem ch hch2, hvch2⟩

lemma wfold_mem_backward (chunks : List (List Voxel)) (acc : List Voxel)
    (ch : List Voxel) (hch : ch ∈ chunks) (v : Voxel) (hv : v ∈ ch) :
    ∃ u ∈ chunks.foldl
        (fun a c => a ++ c.filter (fun x => !(a.any (fun y => Voxel.veq x y))))
        acc, Voxel.veq u v = true := by
  induction chunks generalizing acc with
  | nil => exact absurd hch (List.not_mem_nil ch)
  | cons ch0 chs ih =>
    rw [List.foldl_cons]
    rcases List.mem_cons.mp hch with heq | htail
    · subst heq
      by_cases hg : (!(acc.any (fun y => Voxel.veq v y))) = true
      · have hvin : v ∈ acc ++ ch.filter (fun x => !(acc.any (fun y => Voxel.veq x y))) :=
          List.mem_append.mpr (Or.inr (List.mem_filter.mpr ⟨hv, hg⟩))
        obtain ⟨t, ht, -⟩ := wfold_append chs
          (acc ++ ch.filter (fun x => !(acc.any (fun y => Voxel.veq x y))))
        refine ⟨v, ?_, veq_refl v⟩
        rw [ht]
        exact List.mem_append_left t hvin
      · have : acc.any (fun y => Voxel.veq v y) = true := by
          simpa using hg
        obtain ⟨y, hy, hvy⟩ := List.any_eq_true.mp this
        have hyv : Voxel.veq y v = true := by rw [veq_symm]; exact hvy
        obtain ⟨t, ht, -⟩ := wfold_append chs
          (acc ++ ch.filter (fun x => !(acc.any (fun y => Voxel.veq x y))))
        refine ⟨y, ?_, hyv⟩
        rw [ht]
        exact List.mem_append_left t (List.mem_append_left _ hy)
    · exact ih _ htail

lemma dedup_foldl_firstSeenOrd (l : List Voxel) (suf pre acc : List Voxel)
    (hl : l = pre ++ suf)
    (hmem : ∀ u ∈ acc, u ∈ pre)
    (hcov : ∀ x ∈ pre, x ∈ acc)
    (hord : acc.Pairwise (fun u v =>
      l.findIdx (fun t => Voxel.veq t u) < l.findIdx (fun t => Voxel.veq t v))) :
    (suf.foldl (fun a v => if a.all (fun u => !(Voxel.veq u v)) then a ++ [v] else a)
        acc).Pairwise (fun u v =>
      l.findIdx (fun t => Voxel.veq t u) < l.findIdx (fun t => Voxel.veq t v)) := by
  induction suf generalizing pre acc with
  | nil => simpa using hord
  | cons v vs ih =>
    rw [List.foldl_cons]
    by_cases hg : acc.all (fun u => !(Voxel.veq u v)) = true
    · rw [if_pos hg]
      have hvnotacc : v ∉ acc := by
        intro hv
        have := List.all_eq_true.mp hg v hv
        simp [veq_refl] at this
      have hvnotpre : v ∉ pre := fun hv => hvnotacc (hcov v hv)
      have hprefalse : ∀ t ∈ pre, Voxel.veq t v = false := by
        intro t ht
        rw [veq_false_iff]
        intro he
        exact hvnotpre (he ▸ ht)
      have hfv : l.findIdx (fun t => Voxel.veq t v) = pre.length := by
        rw [hl, List.findIdx_append,
          List.findIdx_eq_length_of_false hprefalse]
        simp [List.findIdx_cons, veq_refl]
      have hfu : ∀ u ∈ acc, l.findIdx (fun t => Voxel.veq t u) < pre.length := by
        intro u hu
        rw [hl, List.findIdx_append]
        have hex : pre.findIdx (fun t => Voxel.veq t u) < pre.length :=
          List.findIdx_lt_length_of_exists ⟨u, hmem u hu, veq_refl u⟩
        rw [if_pos hex]
        exact hex
      refine ih (pre ++ [v]) (acc ++ [v]) ?_ ?_ ?_ ?_
      · rw [hl, List.append_assoc]
        rfl
      · intro u hu
        rcases List.mem_append.mp hu with h | h
        · exact List.mem_append_left _ (hmem u h)
        · exact List.mem_append_right _ h
      · intro x hx
        rcases List.mem_append.mp hx with h | h
        · exact List.mem_append_left _ (hcov x h)
        · exact List.mem_append_right _ h
      · rw [List.pairwise_append]
        refine ⟨hord, List.pairwise_singleton _ _, ?_⟩
        intro u hu b hb
        simp only [List.mem_singleton] at hb
        subst hb
        rw [hfv]
        exact hfu u hu
    · rw [if_neg hg]
      have hvacc : v ∈ acc := by
        have hg2 : acc.all (fun u => !(Voxel.veq u v)) = false :=
          Bool.eq_false_iff.mpr hg
        obtain ⟨u, hu, hnot⟩ := List.all_eq_false.mp hg2
        have hueq : Voxel.veq u v = true := by simpa using hnot
        exact (veq_iff u v).mp hueq ▸ hu
      refine ih (pre ++ [v]) acc ?_ ?_ ?_ hord
      · rw [hl, List.append_assoc]
        rfl
      · intro u hu
        exact List.mem_append_left _ (hmem u hu)
      · intro x hx
        rcases List.mem_append.mp hx with h | h
        · exact hcov x h
        · simp only [List.mem_singleton] at h
          exact h ▸ hvacc

lemma cube_voxelTypes_firstSeen (c : Cube) :
    c.voxelTypes.Pairwise (fun u v =>
      c.vox.flatten.flatten.findIdx (fun t => Voxel.veq t u) <
      c.vox.flatten.flatten.findIdx (fun t => Voxel.veq t v)) := by
  unfold Cube.voxelTypes
  refine List.Pairwise.sublist (List.filter_sublist _) ?_
  exact dedup_foldl_firstSeenOrd _ _ [] [] rfl (by simp) (by simp)
    List.Pairwise.nil

lemma chunk_foldl_eq_filter (ch acc : List Voxel)
    (hch : ch.Pairwise (fun u v => Voxel.veq u v = false)) :
    ch.foldl (fun a v => if a.all (fun u => !(Voxel.veq u v)) then a ++ [v] else a)
        acc =
      acc ++ ch.filter (fun x => !(acc.any (fun y => Voxel.veq x y))) := by
  induction ch generalizing acc with
  | nil => simp
  | cons v vs ih =>
    rw [List.foldl_cons]
    have hpair := List.pairwise_cons.mp hch
    by_cases hg : acc.all (fun u => !(Voxel.veq u v)) = true
    · rw [if_pos hg, ih (acc ++ [v]) hpair.2]
      have hfeq : vs.filter (fun x => !((acc ++ [v]).any (fun y => Voxel.veq x y))) =
          vs.filter (fun x => !(acc.any (fun y => Voxel.veq x y))) := by
        apply List.filter_congr
        intro x hx
        have hxv : Voxel.veq x v = false := by
          rw [veq_symm]
          exact hpair.1 x hx
        simp [List.any_append, hxv]
      have hvkeep : (acc.any fun y => Voxel.veq v y) = false := by
        rw [List.any_eq_false]
        intro y hy
        rw [veq_symm]
        simpa using List.all_eq_true.mp hg y hy
      rw [hfeq, List.filter_cons]
      simp [hvkeep]
    · rw [if_neg hg, ih acc hpair.2]
      have hg2 : acc.all (fun u => !(Voxel.veq u v)) = false :=
        Bool.eq_false_iff.mpr hg
      obtain ⟨u, hu, hnot⟩ := List.all_eq_false.mp hg2
      have hueq : Voxel.veq u v = true := by simpa using hnot
      have hvdrop : (acc.any fun y => Voxel.veq v y) = true := by
        rw [List.any_eq_true]
        exact ⟨u, hu, by rw [veq_symm]; exact hueq⟩
      rw [List.filter_cons]
      simp [hvdrop]

lemma wfold_eq_dedup (chunks : List (List Voxel)) (acc : List Voxel)
    (hch : ∀ ch ∈ chunks, ch.Pairwise (fun u v => Voxel.veq u v = false)) :
    chunks.foldl
        (fun a c => a ++ c.filter (fun x => !(a.any (fun y => Voxel.veq x y))))
        acc =
      chunks.flatten.foldl
        (fun a v => if a.all (fun u => !(Voxel.veq u v)) then a ++ [v] else a)
        acc := by
  induction chunks generalizing acc with
  | nil => simp
  | cons ch chs ih =>
    rw [List.foldl_cons, List.flatten_cons, List.foldl_append,
      chunk_foldl_eq_filter ch acc (hch ch (List.mem_cons_self ch chs))]
    exact ih _ (fun c hc => hch c (List.mem_cons_of_mem ch hc))

lemma world_voxelTypes_firstSeen (w : World) :
    w.voxelTypes.Pairwise (fun u v =>
      (w.cube.map Cube.voxelTypes).flatten.findIdx (fun t => Voxel.veq t u) <
      (w.cube.map Cube.voxelTypes).flatten.findIdx (fun t => Voxel.veq t v)) := by
  unfold World.voxelTypes
  rw [wfold_eq_dedup _ [] ?_]
  · exact dedup_foldl_firstSeenOrd _ _ [] [] rfl (by simp) (by simp)
      List.Pairwise.nil
  · intro ch hc
    obtain ⟨cb, -, rfl⟩ := List.mem_map.mp hc
    exact cube_voxelTypes_pairwise cb

/-- Claim C8: voxelTypes of a Cube holds no two component-wise equal voxels
and no invisible (alpha 0) voxel, and lists entries in first-seen scan
order: it is a subsequence of the flattened voxel grid AND consecutive
entries are ordered by the index of their first occurrence in that scan;
voxelTypes of a World is the deduplicated union of the palette cubes'
voxelTypes: again pairwise distinct and all visible, every entry comes
from some palette cube, every palette cube's voxel type has a
component-wise equal representative, and entries are ordered by first
occurrence in the concatenation of the palette cubes' voxelTypes. -/
theorem claim_C8_voxelTypes (c : Cube) (w : World) :
    c.voxelTypes.Pairwise (fun u v => Voxel.veq u v = false) ∧
    (∀ v ∈ c.voxelTypes, v.visible = true) ∧
    c.voxelTypes.Sublist c.vox.flatten.flatten ∧
    w.voxelTypes.Pairwise (fun u v => Voxel.veq u v = false) ∧
    (∀ v ∈ w.voxelTypes, v.visible = true) ∧
    (∀ v ∈ w.voxelTypes, ∃ cb ∈ w.cube, v ∈ cb.voxelTypes) ∧
    (∀ cb ∈ w.cube, ∀ v ∈ cb.voxelTypes, ∃ u ∈ w.voxelTypes,
      Voxel.veq u v = true) ∧
    c.voxelTypes.Pairwise (fun u v =>
      c.vox.flatten.flatten.findIdx (fun t => Voxel.veq t u) <
      c.vox.flatten.flatten.findIdx (fun t => Voxel.veq t v)) ∧
    w.voxelTypes.Pairwise (fun u v =>
      (w.cube.map Cube.voxelTypes).flatten.findIdx (fun t => Voxel.veq t u) <
      (w.cube.map Cube.voxelTypes).flatten.findIdx (fun t => Voxel.veq t v)) := by
  refine ⟨cube_voxelTypes_pairwise c, cube_voxelTypes_visible c,
    cube_voxelTypes_sublist c, ?_, ?_, ?_, ?_,
    cube_voxelTypes_firstSeen c, world_voxelTypes_firstSeen w⟩
  · unfold World.voxelTypes
    refine wfold_pairwise _ [] List.Pairwise.nil ?_
    intro ch hc
    obtain ⟨cb, hcb, rfl⟩ := List.mem_map.mp hc
    exact cube_voxelTypes_pairwise cb
  · intro v hv
    unfold World.voxelTypes at hv
    rcases wfold_mem_forward _ [] v hv with h | ⟨ch, hch, hvch⟩
    · simp at h
    · obtain ⟨cb, hcb, rfl⟩ := List.mem_map.mp hch
      exact cube_voxelTypes_visible cb v hvch
  · intro v hv
    unfold World.voxelTypes at hv
    rcases wfold_mem_forward _ [] v hv with h | ⟨ch, hch, hvch⟩
    · simp at h
    · obtain ⟨cb, hcb, rfl⟩ := List.mem_map.mp hch
      exact ⟨cb, hcb, hvch⟩
  · intro cb hcb v hv
    unfold World.voxelTypes
    exact wfold_mem_backward _ [] cb.voxelTypes
      (List.mem_map_of_mem Cube.voxelTypes hcb) v hv

/-- Witness for C8: the voxel types of a cube with a repeated visible
voxel and an invisible one are pairwise distinct. -/
theorem claim_C8_voxelTypes_witness :
    (Cube.mk "c" "" [[[⟨1, 1, 1, 1⟩, ⟨1, 1, 1, 1⟩, ⟨0, 0, 0, 0⟩]]] "").voxelTypes.Pairwise
      (fun u v => Voxel.veq u v = false) :=
  (claim_C8_voxelTypes
    (Cube.mk "c" "" [[[⟨1, 1, 1, 1⟩, ⟨1, 1, 1, 1⟩, ⟨0, 0, 0, 0⟩]]] "")
    (World.mk "" "" [] [[[0]]] "")).1
